import Mathlib

/-!
Shallow embedding of `is-the-port-open` (src/main.py): a Tk GUI that probes a
list of named (host, port) endpoints over TCP.  We model the probe classifier
`check_tcp_open`, the persistence layer `save_state`/`load_state`, the target
list operations (`add_target`, `delete_row`), the scan orchestration of
`App.refresh_async` / `App._refresh_worker` (single-flight flag, snapshot,
result assembly), and the auto-refresh scheduler
(`_schedule_auto_refresh` / `_auto_refresh_tick`).

Machine integers are modelled as `Nat`/`Int` (Python ints are unbounded);
wall-clock instants (`time.perf_counter`) and float settings as `ℚ`.
-/

/-! ### Decimal rendering and parsing

Python renders ports with `str(port)` / f-strings and parses them with
`int(port_str)`.  We model the decimal representation directly:
`natRepr` renders a `Nat` as its decimal digit list, `parseNat?` parses a
digit list (the behaviour of `int` on the strings this program writes). -/

/-- The decimal digit character for `d` (source: Python `str` of a digit). -/
def decDigit (d : Nat) : Char := Char.ofNat (48 + d)

/-- Decimal rendering, recursive reference version (most significant digit
produced last). -/
def natReprAux (n : Nat) : List Char :=
  if h : n < 10 then [decDigit n]
  else natReprAux (n / 10) ++ [decDigit (n % 10)]
  decreasing_by exact Nat.div_lt_self (by omega) (by omega)

/-- Accumulator loop for `natRepr` (structural recursion on fuel). -/
def natReprGo : Nat → Nat → List Char → List Char
  | 0, _, acc => acc
  | fuel + 1, n, acc =>
    if n < 10 then decDigit n :: acc
    else natReprGo fuel (n / 10) (decDigit (n % 10) :: acc)

/-- Decimal rendering of a natural number, as Python `str(n)` produces. -/
def natRepr (n : Nat) : List Char := natReprGo (n + 1) n []

/-- Numeric value of a decimal digit character, if it is one. -/
def decVal? (c : Char) : Option Nat :=
  if 48 ≤ c.toNat ∧ c.toNat ≤ 57 then some (c.toNat - 48) else none

/-- Fold a digit list left-to-right onto an accumulator, failing on a
non-digit (the core of Python `int` on the digit strings we emit). -/
def parseNatGo : List Char → Nat → Option Nat
  | [], acc => some acc
  | c :: cs, acc =>
    match decVal? c with
    | some d => parseNatGo cs (acc * 10 + d)
    | none => none

/-- Parse a nonempty decimal digit string, as Python `int` does on the
strings written by this program. -/
def parseNat? (l : List Char) : Option Nat :=
  match l with
  | [] => none
  | _ => parseNatGo l 0

theorem decVal?_decDigit {d : Nat} (h : d < 10) : decVal? (decDigit d) = some d := by
  interval_cases d <;> rfl

theorem natReprAux_ne_nil (n : Nat) : natReprAux n ≠ [] := by
  rw [natReprAux]
  split <;> simp

theorem parseNatGo_append (l₁ l₂ : List Char) (acc : Nat) :
    parseNatGo (l₁ ++ l₂) acc =
      (parseNatGo l₁ acc).bind (fun a => parseNatGo l₂ a) := by
  induction l₁ generalizing acc with
  | nil => simp [parseNatGo]
  | cons c cs ih =>
    simp only [List.cons_append, parseNatGo]
    cases decVal? c with
    | none => simp
    | some d => simp [ih]

theorem parseNatGo_natReprAux (n : Nat) :
    ∀ acc : Nat, parseNatGo (natReprAux n) acc = some (acc * 10 ^ (natReprAux n).length + n) := by
  induction n using Nat.strong_induction_on with
  | _ n ih =>
    intro acc
    rw [natReprAux]
    split
    · next h =>
      simp [parseNatGo, decVal?_decDigit h]
    · next h =>
      rw [parseNatGo_append]
      have hd : n / 10 < n := Nat.div_lt_self (by omega) (by omega)
      rw [ih (n / 10) hd acc]
      have hm : n % 10 < 10 := Nat.mod_lt _ (by omega)
      simp only [Option.some_bind, parseNatGo, decVal?_decDigit hm,
        List.length_append, List.length_singleton]
      congr 1
      calc (acc * 10 ^ (natReprAux (n / 10)).length + n / 10) * 10 + n % 10
          = acc * 10 ^ ((natReprAux (n / 10)).length + 1) + (10 * (n / 10) + n % 10) := by
            rw [pow_succ]; ring
        _ = acc * 10 ^ ((natReprAux (n / 10)).length + 1) + n := by
            rw [Nat.div_add_mod]

theorem parseNat?_natReprAux (n : Nat) : parseNat? (natReprAux n) = some n := by
  have h := natReprAux_ne_nil n
  unfold parseNat?
  split
  · exact absurd (by assumption) h
  · rw [parseNatGo_natReprAux n 0]; simp

theorem natReprAux_injective : Function.Injective natReprAux := by
  intro m n h
  have hm := parseNat?_natReprAux m
  have hn := parseNat?_natReprAux n
  rw [h, hn] at hm
  exact (Option.some_injective _ hm).symm

theorem natReprAux_isDigit {n : Nat} {c : Char} (hc : c ∈ natReprAux n) :
    48 ≤ c.toNat ∧ c.toNat ≤ 57 := by
  induction n using Nat.strong_induction_on with
  | _ n ih =>
    rw [natReprAux] at hc
    split at hc
    · next h =>
      simp only [List.mem_singleton] at hc
      subst hc
      interval_cases n <;> simp [decDigit]
    · next h =>
      rcases List.mem_append.mp hc with h1 | h2
      · exact ih (n / 10) (Nat.div_lt_self (by omega) (by omega)) h1
      · simp only [List.mem_singleton] at h2
        subst h2
        have hm : n % 10 < 10 := Nat.mod_lt _ (by omega)
        interval_cases hh : n % 10 <;> simp [decDigit]

theorem natReprGo_spec :
    ∀ (f n : Nat) (acc : List Char), n < 10 ^ (f + 1) →
      natReprGo (f + 1) n acc = natReprAux n ++ acc := by
  intro f
  induction f with
  | zero =>
    intro n acc hn
    have h10 : n < 10 := by simpa using hn
    rw [natReprAux]
    simp [natReprGo, h10]
  | succ f ih =>
    intro n acc hn
    by_cases h10 : n < 10
    · rw [natReprAux]
      simp [natReprGo, h10]
    · have hdiv : n / 10 < 10 ^ (f + 1) := by
        rw [Nat.div_lt_iff_lt_mul (by norm_num : (0:Nat) < 10)]
        calc n < 10 ^ (f + 1 + 1) := hn
          _ = 10 ^ (f + 1) * 10 := by rw [pow_succ]
      calc natReprGo (f + 1 + 1) n acc
          = natReprGo (f + 1) (n / 10) (decDigit (n % 10) :: acc) := by
            simp [natReprGo, h10]
        _ = natReprAux (n / 10) ++ decDigit (n % 10) :: acc := ih (n / 10) _ hdiv
        _ = natReprAux n ++ acc := by
            conv_rhs => rw [natReprAux]
            rw [dif_neg h10]
            simp

theorem natRepr_eq_aux (n : Nat) : natRepr n = natReprAux n := by
  have h : n < 10 ^ (n + 1) :=
    lt_of_lt_of_le (Nat.lt_pow_self (by norm_num) n)
      (Nat.pow_le_pow_right (by norm_num) (Nat.le_succ n))
  simpa [natRepr] using natReprGo_spec n n [] h

theorem natRepr_ne_nil (n : Nat) : natRepr n ≠ [] := by
  rw [natRepr_eq_aux]
  exact natReprAux_ne_nil n

theorem parseNat?_natRepr (n : Nat) : parseNat? (natRepr n) = some n := by
  rw [natRepr_eq_aux]
  exact parseNat?_natReprAux n

theorem natRepr_injective : Function.Injective natRepr := by
  intro a b hab
  apply natReprAux_injective
  rwa [← natRepr_eq_aux, ← natRepr_eq_aux]

theorem natRepr_isDigit {n : Nat} {c : Char} (hc : c ∈ natRepr n) :
    48 ≤ c.toNat ∧ c.toNat ≤ 57 :=
  natReprAux_isDigit (by rwa [natRepr_eq_aux] at hc)

/-! ### Target (src/main.py, `@dataclass class Target`) -/

/-- A named endpoint: `name`, `host`, `port` (src/main.py lines 51–55). -/
structure Target where
  name : String
  host : String
  port : Nat
deriving DecidableEq, Repr

/-! ### Probe: `check_tcp_open` (src/main.py lines 115–128)

`socket.create_connection` either succeeds or raises.  For an in-range
port and a positive timeout its network failures are in the `OSError`
hierarchy (`socket.gaierror`, `TimeoutError` — which `socket.timeout`
aliases — and `ConnectionRefusedError` are all `OSError` subclasses),
but name resolution can also raise outside it: for a malformed non-ASCII
hostname (an empty or over-63-character label), `getaddrinfo` encodes the
name with the `idna` codec, which raises `UnicodeError` — a `ValueError`
subclass, not an `OSError` — and the source's except chain does not catch
it.  `PyExc` enumerates these cases as the except clauses distinguish
them. -/

inductive PyExc where
  /-- `socket.gaierror`: name resolution failed. -/
  | gaierror
  /-- `TimeoutError` (= `socket.timeout`): the timeout budget elapsed. -/
  | timeoutExc
  /-- `ConnectionRefusedError`: the peer actively refused. -/
  | connectionRefused
  /-- Any other `OSError` (unreachable network, protocol error, ...). -/
  | otherOSError
  /-- `UnicodeError` from the `idna` codec inside `getaddrinfo`, for a
  malformed non-ASCII hostname; a `ValueError` subclass, outside the
  `OSError` hierarchy. -/
  | unicodeError
deriving DecidableEq, Repr

/-- `isinstance(e, socket.gaierror)`. -/
def PyExc.isGaierror : PyExc → Bool
  | .gaierror => true
  | _ => false

/-- `isinstance(e, TimeoutError)`. -/
def PyExc.isTimeoutError : PyExc → Bool
  | .timeoutExc => true
  | _ => false

/-- `isinstance(e, ConnectionRefusedError)`. -/
def PyExc.isConnectionRefused : PyExc → Bool
  | .connectionRefused => true
  | _ => false

/-- `isinstance(e, OSError)`: true for the network failures, false for
the `idna` codec's `UnicodeError`. -/
def PyExc.isOSError : PyExc → Bool
  | .unicodeError => false
  | _ => true

/-- The observable behaviour of one `socket.create_connection` call:
either it connects (with the `time.perf_counter` readings taken at entry
and after the connection is established) or it raises. -/
inductive ConnectBehavior where
  | connects (startT finishT : ℚ)
  | raises (e : PyExc)
deriving DecidableEq

/-- `check_tcp_open(host, port, timeout_seconds)` (src/main.py 115–128):
the try/except chain, clauses tried in source order.  An exception matched
by no clause would propagate (`Except.error`). -/
def check_tcp_open (host : String) (port : Nat) (timeoutSeconds : ℚ)
    (net : ConnectBehavior) : Except PyExc (String × Option ℚ) :=
  match net with
  | .connects startT finishT => .ok ("OPEN", some ((finishT - startT) * 1000))
  | .raises e =>
    if e.isGaierror then .ok ("DNS_FAIL", none)
    else if e.isTimeoutError then .ok ("TIMEOUT", none)
    else if e.isOSError then
      if e.isConnectionRefused then .ok ("CLOSED", none) else .ok ("ERROR", none)
    else .error e

/-! ### `add_target` (src/main.py lines 576–588) -/

/-- The Python f-string `f"{base} ({n})"`. -/
def fmtName (base : String) (n : Nat) : String :=
  base ++ " (" ++ String.mk (natRepr n) ++ ")"

/-- The collision loop `n = 2; while f"{base} ({n})" in existing: n += 1`,
with explicit fuel (the caller supplies enough for termination, which the
pigeonhole argument below justifies). -/
def bumpName (existing : List String) (base : String) : Nat → Nat → Nat
  | 0, n => n
  | fuel + 1, n =>
    if fmtName base n ∈ existing then bumpName existing base fuel (n + 1) else n

/-- `App.add_target`: rename on collision, then append (src/main.py 576–588).
(The UI state updates `persist`/`rebuild_rows`/`refresh_async` around it are
modelled on `AppState` below.) -/
def add_target (targets : List Target) (t : Target) : List Target :=
  let existing := targets.map Target.name
  let newName :=
    if t.name ∈ existing then
      fmtName t.name (bumpName existing t.name (existing.length + 1) 2)
    else t.name
  targets ++ [{ t with name := newName }]

/-! ### Persistence: `save_state` / `load_state` (src/main.py lines 58–113)

The `TARGETS` section is modelled down to the `configparser` text layer.
On save, `cfg["TARGETS"][t.name] = ...` is an insertion-ordered dict
assignment (overwrite in place on a repeated key, `dictInsert`) whose
value first passes `BasicInterpolation.before_set` — a bare `%` raises
`ValueError` (`percentOk`); `cfg.write` then emits one `key = value` line
per option.  On load, `cfg.read` strips inline comments (`;`/`#` at line
start or right after whitespace, per `inline_comment_prefixes`), strips
the line, treats a leading `[` as a section header, splits the rest at
the *first* `=` or `:` (the option regex; no delimiter is a
`ParsingError`), strips key and value, and rejects duplicate option keys
(`strict=True`); iterating the section then interpolates each value,
turning `%%` into `%` and failing on any other `%`.  A `%(key)s`
reference is modelled as a failure: it rewrites the value on read, so it
never round-trips the raw text.  The `SETTINGS` numbers travel through
`str`/`getfloat`/`getint`, an exact round trip for Python floats and
ints, so they are stored typed; multi-line values (embedded newlines) are
outside the model and excluded by hypothesis where it matters. -/

/-- Python whitespace test, for `str.strip`. -/
def isSpace (c : Char) : Bool := c.isWhitespace

/-- `str.strip()`: drop whitespace from both ends. -/
def stripChars (l : List Char) : List Char :=
  ((l.dropWhile isSpace).reverse.dropWhile isSpace).reverse

/-- `raw.rsplit(":", 1)` for a `raw` containing a colon: split at the last
colon. -/
def rsplitColon (l : List Char) : List Char × List Char :=
  ((((l.reverse.dropWhile (fun c => c ≠ ':'))).drop 1).reverse,
   (l.reverse.takeWhile (fun c => c ≠ ':')).reverse)

/-- Ordered dict assignment `d[k] = v`: overwrite in place if the key
exists, else append. -/
def dictInsert (l : List (String × String)) (k v : String) :
    List (String × String) :=
  if l.any (fun p => p.1 = k) then
    l.map (fun p => if p.1 = k then (k, v) else p)
  else l ++ [(k, v)]

/-- A persistence failure, i.e. an exception escaping `save_state` or
`load_state`: `invalidPercent` is `before_set`'s `ValueError` on a bare
`%` in an assigned value; `parsingError` covers a delimiter-less option
line and a bracketed line (a `SECTCRE` match diverts the following
options out of `[TARGETS]` — either way the section is not read back);
`duplicateOption` is `DuplicateOptionError` under the default
`strict=True`; `interpolationError` is `InterpolationSyntaxError` when
the values are fetched. -/
inductive PersistError where
  | invalidPercent
  | parsingError
  | duplicateOption
  | interpolationError
deriving DecidableEq, Repr

instance {ε α : Type} [DecidableEq ε] [DecidableEq α] :
    DecidableEq (Except ε α) := fun x y =>
  match x, y with
  | .error a, .error b =>
    if h : a = b then .isTrue (by rw [h])
    else .isFalse (fun hc => h (by injection hc))
  | .ok a, .ok b =>
    if h : a = b then .isTrue (by rw [h])
    else .isFalse (fun hc => h (by injection hc))
  | .error _, .ok _ => .isFalse (fun hc => Except.noConfusion hc)
  | .ok _, .error _ => .isFalse (fun hc => Except.noConfusion hc)

/-- `BasicInterpolation.before_set` as a check: `%%` escapes are accepted;
any other `%` raises `ValueError` when the value is assigned into the
section.  (A `%(key)s` reference is treated as invalid here; see the
section comment.) -/
def percentOk : List Char → Bool
  | [] => true
  | c :: cs =>
    if c = '%' then
      match cs with
      | '%' :: rest => percentOk rest
      | _ => false
    else percentOk cs

/-- `BasicInterpolation.before_get` on a raw stored value: `%%` becomes
`%`; any other `%` fails with an interpolation error. -/
def interpolate? : List Char → Option (List Char)
  | [] => some []
  | c :: cs =>
    if c = '%' then
      match cs with
      | '%' :: rest => (interpolate? rest).map (fun l => '%' :: l)
      | _ => none
    else (interpolate? cs).map (fun l => c :: l)

/-- `cfg.read`'s inline-comment removal on one line: a `;` or `#` at the
start of the line or right after whitespace starts a comment and the line
is truncated there.  The `Bool` carries whether the previous character
was whitespace (`true` at line start). -/
def stripComment : Bool → List Char → List Char
  | _, [] => []
  | atBreak, c :: cs =>
    if (c = ';' ∨ c = '#') ∧ atBreak then []
    else c :: stripComment c.isWhitespace cs

/-- Split a line at the first `=` or `:`, as `configparser`'s option
regex does; `none` when the line has no delimiter (a `ParsingError` on
read). -/
def splitFirstDelim : List Char → Option (List Char × List Char)
  | [] => none
  | c :: cs =>
    if c = '=' ∨ c = ':' then some ([], cs)
    else (splitFirstDelim cs).map (fun p => (c :: p.1, p.2))

/-- The persisted file: the typed `SETTINGS` numbers and the serialized
`[TARGETS]` section, one line per option as `cfg.write` emits it. -/
structure IniFile where
  timeout : ℚ
  maxWorkers : ℤ
  autoRefresh : ℤ
  targetLines : List String
deriving DecidableEq, Repr

/-- The value string written for a target: `f"{t.host}:{t.port}"`. -/
def targetValue (t : Target) : String :=
  t.host ++ ":" ++ String.mk (natRepr t.port)

/-- The option line `cfg.write` emits for one dict entry (delimiter
`" = "`, `space_around_delimiters=True` default). -/
def iniLine (kv : String × String) : String := kv.1 ++ " = " ++ kv.2

/-- The `TARGETS` loop of `save_state` (src/main.py 106–108):
`cfg["TARGETS"][t.name] = f"{t.host}:{t.port}"` per target —
`before_set` validation, then ordered-dict assignment. -/
def buildTargetsDict : List Target → List (String × String) →
    Except PersistError (List (String × String))
  | [], acc => .ok acc
  | t :: ts, acc =>
    if percentOk (targetValue t).data then
      buildTargetsDict ts (dictInsert acc t.name (targetValue t))
    else .error .invalidPercent

/-- `save_state` (src/main.py 96–113): settings typed, then the `TARGETS`
dict built and written one line per option. -/
def save_state (timeout : ℚ) (maxWorkers autoRefresh : ℤ)
    (targets : List Target) : Except PersistError IniFile :=
  match buildTargetsDict targets [] with
  | .error e => .error e
  | .ok d =>
    .ok { timeout := timeout, maxWorkers := maxWorkers,
          autoRefresh := autoRefresh, targetLines := d.map iniLine }

/-- `cfg.read` on one option line: remove inline comments, strip; an
empty result is skipped; a leading `[` opens a section header, breaking
the `TARGETS` round trip (modelled as a load failure); otherwise split at
the first delimiter and strip key and value. -/
def parseIniLine (line : String) :
    Except PersistError (Option (String × String)) :=
  let cleaned := stripChars (stripComment true line.data)
  if cleaned = [] then .ok none
  else if cleaned.head? = some '[' then .error .parsingError
  else
    match splitFirstDelim cleaned with
    | none => .error .parsingError
    | some kv =>
      .ok (some (String.mk (stripChars kv.1), String.mk (stripChars kv.2)))

/-- `cfg.read` over the `[TARGETS]` lines: parse each option line in
order, rejecting duplicate keys (`strict=True`). -/
def readTargetSection : List String → List (String × String) →
    Except PersistError (List (String × String))
  | [], acc => .ok acc
  | line :: rest, acc =>
    match parseIniLine line with
    | .error e => .error e
    | .ok none => readTargetSection rest acc
    | .ok (some kv) =>
      if acc.any (fun p => p.1 = kv.1) then .error .duplicateOption
      else readTargetSection rest (acc ++ [kv])

/-- Iterating `cfg["TARGETS"].items()`: each stored value passes through
`BasicInterpolation.before_get`; a bare `%` raises, aborting the load. -/
def interpolateEntries : List (String × String) →
    Except PersistError (List (String × String))
  | [] => .ok []
  | kv :: rest =>
    match interpolate? kv.2.data with
    | none => .error .interpolationError
    | some v2 =>
      match interpolateEntries rest with
      | .error e => .error e
      | .ok l => .ok ((kv.1, String.mk v2) :: l)

/-- One iteration of `load_state`'s `TARGETS` loop (src/main.py 76–91):
strip the value, require a colon, rsplit at the last colon, strip both
halves, parse the port and require 1–65535, require nonempty host and
stripped name; otherwise skip the entry. -/
def parseTargetEntry (name value : String) : Option Target :=
  let raw := stripChars value.data
  if ':' ∈ raw then
    let hp := rsplitColon raw
    let host := stripChars hp.1
    let portStr := stripChars hp.2
    match parseNat? portStr with
    | none => none
    | some port =>
      if 1 ≤ port ∧ port ≤ 65535 ∧ host ≠ [] ∧ stripChars name.data ≠ [] then
        some ⟨String.mk (stripChars name.data), String.mk host, port⟩
      else none
  else none

/-- `load_state` (src/main.py 67–93): read the `[TARGETS]` section back
through the configparser layer (`_read_ini`/`cfg.read`, then the
interpolating `items()` iteration), and fold the entries through the
validating per-entry parser, in file order.  Any configparser exception
propagates out of `load_state`. -/
def load_state (ini : IniFile) :
    Except PersistError (ℚ × ℤ × ℤ × List Target) :=
  match readTargetSection ini.targetLines [] with
  | .error e => .error e
  | .ok entries =>
    match interpolateEntries entries with
    | .error e => .error e
    | .ok interp =>
      .ok (ini.timeout, ini.maxWorkers, ini.autoRefresh,
        interp.filterMap (fun kv => parseTargetEntry kv.1 kv.2))

/-! ### App orchestration (src/main.py lines 427–697)

The mutable state of `App` that the claims are about.  `rows` carries the
`TargetRow` widgets' targets (`rebuild_rows` syncs it with `targets` while
idle); `refreshInProgress` is the single-flight flag (its check-and-set in
`refresh_async` is atomic under `refresh_lock`, so the whole of
`refresh_async` up to the thread start is one step here);
`runningWorkers` counts live `_refresh_worker` threads; `session` is the
in-flight scan's by-value snapshot; `pendingAuto` is the one outstanding
`after` callback of the auto-scheduler. -/

/-- The data captured for an in-flight scan: the `(host, port, timeout)`
triples passed by value to `executor.submit`, and the row labels the
results will be attributed to. -/
structure ScanSession where
  probes : List (String × Nat × ℚ)
  labels : List String
deriving DecidableEq, Repr

/-- A scheduled `tk.after` callback: its id and its firing instant in
milliseconds. -/
structure PendingTimer where
  id : Nat
  fireAt : Nat
deriving DecidableEq, Repr

structure AppState where
  timeout : ℚ
  maxWorkers : Nat
  autoRefreshSeconds : Nat
  targets : List Target
  rows : List Target
  refreshInProgress : Bool
  runningWorkers : Nat
  session : Option ScanSession
  pendingAuto : Option PendingTimer
  nextAfterId : Nat
deriving DecidableEq, Repr

/-- `App.__init__` state after `load_state` (src/main.py 440–448): idle,
no worker, no pending timer. -/
def initApp (timeout : ℚ) (mw ar : Nat) (ts : List Target) : AppState :=
  { timeout := timeout, maxWorkers := mw, autoRefreshSeconds := ar,
    targets := ts, rows := ts, refreshInProgress := false, runningWorkers := 0,
    session := none, pendingAuto := none, nextAfterId := 0 }

/-- `App.refresh_async` (src/main.py 650–665): under `refresh_lock`, test
`refresh_in_progress` and return without effect if set, else set it and
start one `_refresh_worker` thread.  The worker's snapshot (`list(self.rows)`
plus the per-target `submit(check_tcp_open, t.host, t.port, self.timeout)`
argument extraction) is recorded at scan start. -/
def refresh_async (s : AppState) : AppState :=
  if s.refreshInProgress then s
  else
    { s with refreshInProgress := true,
             runningWorkers := s.runningWorkers + 1,
             session := some { probes := s.rows.map (fun t => (t.host, t.port, s.timeout)),
                               labels := s.rows.map Target.name } }

/-- A call delivered to the presentation layer (the Result Sink) via
`self.after(0, ·)`. -/
inductive SinkCall where
  /-- `apply_results`: the complete batch for the session. -/
  | scanComplete (results : List (String × String × Option ℚ))
  /-- `recover`: the scan-level failure path of `_refresh_worker`'s
  `except Exception` clause. -/
  | scanFailed
deriving DecidableEq

/-- The end of `App._refresh_worker` (src/main.py 667–697): on success the
batch is handed to the sink as one `apply_results` call; if the
fan-out/aggregation raised internally, `recover` is posted instead — in
both cases the flag is cleared and the worker exits. -/
def refreshWorkerFinish (s : AppState) (failed : Bool)
    (results : List (String × String × Option ℚ)) : AppState × List SinkCall :=
  if failed then
    ({ s with refreshInProgress := false, runningWorkers := s.runningWorkers - 1,
              session := none },
     [SinkCall.scanFailed])
  else
    ({ s with refreshInProgress := false, runningWorkers := s.runningWorkers - 1,
              session := none },
     [SinkCall.scanComplete results])

/-- `App._schedule_auto_refresh` (src/main.py 620–629): cancel the pending
`after` callback if any, then, if the interval is positive, schedule a
fresh one `auto_refresh_seconds * 1000` ms from now. -/
def schedule_auto_refresh (now : Nat) (s : AppState) : AppState :=
  if s.autoRefreshSeconds > 0 then
    { s with pendingAuto := some ⟨s.nextAfterId, now + s.autoRefreshSeconds * 1000⟩,
             nextAfterId := s.nextAfterId + 1 }
  else { s with pendingAuto := none }

/-- `App._auto_refresh_tick` (src/main.py 631–633): trigger a refresh, then
reprogram one more firing. -/
def auto_refresh_tick (now : Nat) (s : AppState) : AppState :=
  schedule_auto_refresh now (refresh_async s)

/-- `App.apply_settings` (src/main.py 601–618): install the new settings
(replacing the executor if `max_workers` changed — not otherwise observable
here), persist, reprogram the scheduler, and trigger a refresh. -/
def apply_settings (now : Nat) (s : AppState) (timeout : ℚ)
    (maxWorkers autoRefresh : Nat) : AppState :=
  refresh_async (schedule_auto_refresh now
    { s with timeout := timeout, maxWorkers := maxWorkers,
             autoRefreshSeconds := autoRefresh })

/-- `App.delete_row` (src/main.py 564–569): rejected while a refresh is in
progress; otherwise filter the live list and rebuild the rows. -/
def delete_row (s : AppState) (row : Target) : AppState :=
  if s.refreshInProgress then s
  else
    let ts := s.targets.filter
      (fun t => !(t.name == row.name && t.host == row.host && t.port == row.port))
    { s with targets := ts, rows := ts }

/-- `App.open_add_dialog` (src/main.py 571–574) followed by the dialog
submitting `t` to `App.add_target`: rejected while a refresh is in
progress; otherwise rename-on-collision, append, rebuild rows and trigger
a refresh. -/
def open_add_dialog_add (s : AppState) (t : Target) : AppState :=
  if s.refreshInProgress then s
  else
    let ts := add_target s.targets t
    refresh_async { s with targets := ts, rows := ts }

/-- An arbitrary assignment to the live list `self.targets`
(e.g. line 567), used to state frame properties of the snapshot. -/
def mutateTargets (s : AppState) (ts : List Target) : AppState :=
  { s with targets := ts }

/-- The concurrent callers that touch the single-flight flag: the manual
Refresh button, the auto-scheduler tick, the settings-apply path, and a
worker thread finishing (success or internal failure). -/
inductive UiEvent where
  | manual
  | autoTick (now : Nat)
  | applySettingsEv (now : Nat) (timeout : ℚ) (maxWorkers autoRefresh : Nat)
  | workerDone (failed : Bool) (results : List (String × String × Option ℚ))

/-- One interleaving step.  A `workerDone` event can only come from a live
worker thread, hence the guard. -/
def uiStep (s : AppState) : UiEvent → AppState
  | .manual => refresh_async s
  | .autoTick now => auto_refresh_tick now s
  | .applySettingsEv now tmo mw ar => apply_settings now s tmo mw ar
  | .workerDone failed results =>
    if s.runningWorkers = 0 then s else (refreshWorkerFinish s failed results).1

/-- Run an arbitrary interleaving of trigger and completion events. -/
def runEvents (s : AppState) (es : List UiEvent) : AppState :=
  es.foldl uiStep s

/-! ### Result assembly (src/main.py lines 667–690)

`_refresh_worker` submits one future per row of the snapshot, keyed by the
`futures[fut] = row` dict, then collects them with `as_completed` — which
yields each future exactly once, in an arbitrary completion order — and
appends `(row, status, latency)` looked up through the dict (the tag),
never through positional order.  `assembleResults` models this: `rows` is
the snapshot, `res i` the probe outcome for row `i`, and `order` the
completion order. -/
def assembleResults (rows : List Target)
    (res : Fin rows.length → String × Option ℚ)
    (order : Equiv.Perm (Fin rows.length)) :
    List (Target × (String × Option ℚ)) :=
  (List.finRange rows.length).map (fun k => (rows.get (order k), res (order k)))

/-! ### Shared helper lemmas -/

theorem digit_not_space {c : Char} (h1 : 48 ≤ c.toNat) : isSpace c = false := by
  unfold isSpace Char.isWhitespace
  simp only [Bool.or_eq_false_iff, decide_eq_false_iff_not]
  refine ⟨⟨⟨fun h => ?_, fun h => ?_⟩, fun h => ?_⟩, fun h => ?_⟩ <;>
    subst h <;> simp [Char.toNat] at h1 <;> exact absurd h1 (by decide)

theorem dropWhile_eq_self_of_all {p : Char → Bool} {l : List Char}
    (h : ∀ c ∈ l, p c = false) : l.dropWhile p = l := by
  cases l with
  | nil => rfl
  | cons c cs =>
    rw [List.dropWhile_cons, h c (List.mem_cons_self c cs)]
    simp

theorem dropWhile_append_eq_self {p : Char → Bool} {l m : List Char}
    (hl : l.dropWhile p = l) (hne : l ≠ []) : (l ++ m).dropWhile p = l ++ m := by
  cases l with
  | nil => exact absurd rfl hne
  | cons c cs =>
    rw [List.dropWhile_cons] at hl
    split at hl
    · exfalso
      have := (List.dropWhile_sublist (l := cs) p).length_le
      have : (cs.dropWhile p).length = cs.length + 1 := by rw [hl]; simp
      omega
    · next hc =>
      rw [List.cons_append, List.dropWhile_cons]
      simp [hc]

theorem takeWhile_append_cons {p : Char → Bool} {xs : List Char} {y : Char}
    {ys : List Char} (hx : ∀ x ∈ xs, p x = true) (hy : p y = false) :
    (xs ++ y :: ys).takeWhile p = xs ∧ (xs ++ y :: ys).dropWhile p = y :: ys := by
  induction xs with
  | nil => simp [List.takeWhile_cons, List.dropWhile_cons, hy]
  | cons a as ih =>
    have ha : p a = true := hx a (List.mem_cons_self a as)
    have hrest : ∀ x ∈ as, p x = true := fun x hm => hx x (List.mem_cons_of_mem a hm)
    obtain ⟨h1, h2⟩ := ih hrest
    constructor
    · rw [List.cons_append, List.takeWhile_cons, ha]
      simp [h1]
    · rw [List.cons_append, List.dropWhile_cons, ha]
      simpa using h2

theorem stripChars_of_clean {l : List Char}
    (hfront : l.dropWhile isSpace = l)
    (hback : l.reverse.dropWhile isSpace = l.reverse) : stripChars l = l := by
  unfold stripChars
  rw [hfront, hback, List.reverse_reverse]

theorem clean_of_stripChars {l : List Char} (h : stripChars l = l) :
    l.dropWhile isSpace = l ∧ l.reverse.dropWhile isSpace = l.reverse := by
  unfold stripChars at h
  have h1 : ((l.dropWhile isSpace).reverse.dropWhile isSpace).length = l.length := by
    rw [← List.length_reverse ((l.dropWhile isSpace).reverse.dropWhile isSpace), h]
  have s1 := List.dropWhile_sublist (l := (l.dropWhile isSpace).reverse) isSpace
  have s2 := List.dropWhile_sublist (l := l) isSpace
  have hlen1 := s1.length_le
  have hlen2 := s2.length_le
  simp only [List.length_reverse] at hlen1
  have hdl : (l.dropWhile isSpace).length = l.length := by omega
  have hd : l.dropWhile isSpace = l := s2.eq_of_length hdl
  refine ⟨hd, ?_⟩
  rw [hd] at h1 s1
  exact s1.eq_of_length (by simpa using h1)


/-! ### C1: single-flight machinery -/

/-- The single-flight invariant: at most one `_refresh_worker` thread is
alive, and the `refresh_in_progress` flag says exactly whether one is. -/
def SingleFlightInv (s : AppState) : Prop :=
  s.runningWorkers ≤ 1 ∧ (s.refreshInProgress = true ↔ s.runningWorkers = 1)

theorem refresh_async_inv {s : AppState} (h : SingleFlightInv s) :
    SingleFlightInv (refresh_async s) := by
  obtain ⟨h1, h2⟩ := h
  unfold refresh_async
  split
  · exact ⟨h1, h2⟩
  · next hflag =>
    simp only [Bool.not_eq_true] at hflag
    have hw : s.runningWorkers ≠ 1 := fun hw => by
      rw [h2.mpr hw] at hflag; exact Bool.true_eq_false.mp hflag
    constructor
    · simp only; omega
    · simp only [true_iff]; omega

theorem schedule_auto_refresh_inv {s : AppState} (now : Nat)
    (h : SingleFlightInv s) : SingleFlightInv (schedule_auto_refresh now s) := by
  obtain ⟨h1, h2⟩ := h
  unfold schedule_auto_refresh
  split <;> exact ⟨h1, h2⟩

theorem uiStep_inv {s : AppState} (h : SingleFlightInv s) (e : UiEvent) :
    SingleFlightInv (uiStep s e) := by
  cases e with
  | manual => exact refresh_async_inv h
  | autoTick now =>
    exact schedule_auto_refresh_inv now (refresh_async_inv h)
  | applySettingsEv now tmo mw ar =>
    exact refresh_async_inv (schedule_auto_refresh_inv now ⟨h.1, h.2⟩)
  | workerDone failed results =>
    obtain ⟨h1, h2⟩ := h
    show SingleFlightInv
      (if s.runningWorkers = 0 then s else (refreshWorkerFinish s failed results).1)
    split
    · exact ⟨h1, h2⟩
    · next hw =>
      unfold refreshWorkerFinish
      split <;>
        exact ⟨by simp only; omega,
               by simp only [Bool.false_eq_true, false_iff]; omega⟩

theorem runEvents_inv {s : AppState} (h : SingleFlightInv s)
    (es : List UiEvent) : SingleFlightInv (runEvents s es) := by
  induction es generalizing s with
  | nil => exact h
  | cons e es ih => exact ih (uiStep_inv h e)

theorem initApp_inv (tmo : ℚ) (mw ar : Nat) (ts : List Target) :
    SingleFlightInv (initApp tmo mw ar ts) := by
  unfold SingleFlightInv initApp
  simp

/-- C1.  Single-flight guarantee: a `refresh_async` call made while a scan
session is in progress returns immediately without effect (the check-and-set
under `refresh_lock` is one atomic step of the model), and under any
interleaving of manual, auto-scheduler, settings-apply and worker-completion
events starting from `App.__init__`'s idle state, at most one
`_refresh_worker` session is ever running. -/
theorem single_flight_guarantee (tmo : ℚ) (mw ar : Nat) (ts : List Target)
    (es : List UiEvent) :
    (runEvents (initApp tmo mw ar ts) es).runningWorkers ≤ 1 ∧
    (∀ s : AppState, s.refreshInProgress = true → refresh_async s = s) := by
  constructor
  · exact (runEvents_inv (initApp_inv tmo mw ar ts) es).1
  · intro s hs
    unfold refresh_async
    simp [hs]

/-- C1 witness: a concrete interleaving (manual trigger, auto tick and a
settings apply racing it, then the worker finishing, then another trigger)
keeps the session count at one, and a concrete `Running` state absorbs
`refresh_async` unchanged. -/
theorem single_flight_guarantee_witness :
    (runEvents (initApp 5 10 3 [⟨"web", "127.0.0.1", 80⟩])
        [UiEvent.manual, UiEvent.autoTick 3000,
         UiEvent.applySettingsEv 4000 2 20 5,
         UiEvent.workerDone false [], UiEvent.manual]).runningWorkers ≤ 1 ∧
    refresh_async
        { timeout := 5, maxWorkers := 10, autoRefreshSeconds := 0,
          targets := [], rows := [], refreshInProgress := true,
          runningWorkers := 1, session := none, pendingAuto := none,
          nextAfterId := 0 } =
      { timeout := 5, maxWorkers := 10, autoRefreshSeconds := 0,
        targets := [], rows := [], refreshInProgress := true,
        runningWorkers := 1, session := none, pendingAuto := none,
        nextAfterId := 0 } :=
  ⟨(single_flight_guarantee 5 10 3 [⟨"web", "127.0.0.1", 80⟩] _).1,
   (single_flight_guarantee 5 10 3 [] []).2 _ rfl⟩

/-! ### C3 / C4: probe classification -/

/-- C3 counterexample: the claim quantifies over every host and asserts
that `check_tcp_open` never propagates an exception, but for a malformed
non-ASCII host such as `"ü..com"` the `idna` codec inside `getaddrinfo`
raises `UnicodeError`, which none of the clauses
`socket.gaierror` / `TimeoutError` / `OSError` catches — the call
propagates the exception instead of returning one of the five
outcomes. -/
theorem check_tcp_open_total_counterexample :
    check_tcp_open "ü..com" 80 5 (ConnectBehavior.raises PyExc.unicodeError) =
      Except.error PyExc.unicodeError := rfl

/-- C3 (amended).  Probe classification over the `OSError` hierarchy: for
every host, in-range port and positive timeout, and every behaviour of
`socket.create_connection` whose failure (if any) lies in the `OSError`
hierarchy — i.e. every network-level failure — `check_tcp_open` returns
normally with exactly one of the five statuses, and each cause maps to
its status: resolution failure to `DNS_FAIL`, refusal to `CLOSED`,
timeout to `TIMEOUT`, any other `OSError` to `ERROR`, success to `OPEN`.
(The one escaping path is the `idna` codec's `UnicodeError` for a
malformed non-ASCII hostname, excluded by the hypothesis; see the
counterexample.) -/
theorem check_tcp_open_total (host : String) (port : Nat) (tmo : ℚ)
    (net : ConnectBehavior) (hport : 1 ≤ port ∧ port ≤ 65535) (htmo : 0 < tmo)
    (hos : ∀ e : PyExc, net = ConnectBehavior.raises e → e.isOSError = true) :
    ∃ r : String × Option ℚ,
      check_tcp_open host port tmo net = Except.ok r ∧
      (r.1 = "OPEN" ∨ r.1 = "CLOSED" ∨ r.1 = "TIMEOUT" ∨
        r.1 = "DNS_FAIL" ∨ r.1 = "ERROR") ∧
      (net = ConnectBehavior.raises PyExc.gaierror → r.1 = "DNS_FAIL") ∧
      (net = ConnectBehavior.raises PyExc.connectionRefused → r.1 = "CLOSED") ∧
      (net = ConnectBehavior.raises PyExc.timeoutExc → r.1 = "TIMEOUT") ∧
      (net = ConnectBehavior.raises PyExc.otherOSError → r.1 = "ERROR") ∧
      (∀ sT fT : ℚ, net = ConnectBehavior.connects sT fT → r.1 = "OPEN") := by
  cases net with
  | connects sT fT =>
    exact ⟨("OPEN", some ((fT - sT) * 1000)), rfl, by simp, by simp, by simp,
      by simp, by simp, fun _ _ _ => rfl⟩
  | raises e =>
    cases e with
    | gaierror =>
      exact ⟨("DNS_FAIL", none), rfl, by simp, fun _ => rfl, by simp, by simp,
        by simp, by simp⟩
    | timeoutExc =>
      exact ⟨("TIMEOUT", none), rfl, by simp, by simp, by simp, fun _ => rfl,
        by simp, by simp⟩
    | connectionRefused =>
      exact ⟨("CLOSED", none), rfl, by simp, by simp, fun _ => rfl, by simp,
        by simp, by simp⟩
    | otherOSError =>
      exact ⟨("ERROR", none), rfl, by simp, by simp, by simp, by simp,
        fun _ => rfl, by simp⟩
    | unicodeError =>
      exact absurd (hos PyExc.unicodeError rfl) (by simp [PyExc.isOSError])

/-- C3 witness: the theorem instantiated at a failing name resolution for
`example.invalid:80` with a 5-second timeout. -/
theorem check_tcp_open_total_witness :
    ∃ r : String × Option ℚ,
      check_tcp_open "example.invalid" 80 5
          (ConnectBehavior.raises PyExc.gaierror) = Except.ok r ∧
      (r.1 = "OPEN" ∨ r.1 = "CLOSED" ∨ r.1 = "TIMEOUT" ∨
        r.1 = "DNS_FAIL" ∨ r.1 = "ERROR") ∧
      (ConnectBehavior.raises PyExc.gaierror =
          ConnectBehavior.raises PyExc.gaierror → r.1 = "DNS_FAIL") ∧
      (ConnectBehavior.raises PyExc.gaierror =
          ConnectBehavior.raises PyExc.connectionRefused → r.1 = "CLOSED") ∧
      (ConnectBehavior.raises PyExc.gaierror =
          ConnectBehavior.raises PyExc.timeoutExc → r.1 = "TIMEOUT") ∧
      (ConnectBehavior.raises PyExc.gaierror =
          ConnectBehavior.raises PyExc.otherOSError → r.1 = "ERROR") ∧
      (∀ sT fT : ℚ, ConnectBehavior.raises PyExc.gaierror =
          ConnectBehavior.connects sT fT → r.1 = "OPEN") :=
  check_tcp_open_total "example.invalid" 80 5
    (ConnectBehavior.raises PyExc.gaierror) (by decide) (by norm_num)
    (by intro e he; cases he; rfl)

/-- C4.  Latency accompanies exactly the `OPEN` outcome: whatever
`check_tcp_open` returns, the latency component is `some` iff the status
is `OPEN`; on a successful connection it is the elapsed
`perf_counter` span in milliseconds, which is nonnegative whenever the
clock is monotone across the call. -/
theorem check_tcp_open_latency (host : String) (port : Nat) (tmo : ℚ)
    (net : ConnectBehavior) (r : String × Option ℚ)
    (hr : check_tcp_open host port tmo net = Except.ok r) :
    (r.2.isSome = true ↔ r.1 = "OPEN") ∧
    (∀ sT fT : ℚ, net = ConnectBehavior.connects sT fT → sT ≤ fT →
      ∃ q : ℚ, r.2 = some q ∧ 0 ≤ q ∧ q = (fT - sT) * 1000) := by
  cases net with
  | connects sT fT =>
    cases hr
    refine ⟨by simp, ?_⟩
    rintro sT' fT' heq hle
    cases heq
    exact ⟨(fT - sT) * 1000, rfl,
      mul_nonneg (sub_nonneg.mpr hle) (by norm_num), rfl⟩
  | raises e =>
    cases e <;> cases hr <;>
      exact ⟨by simp, by rintro _ _ ⟨⟩⟩

/-- C4 witness: a connection established between `perf_counter` readings
3 and 7/2 yields `OPEN` with latency `(7/2 − 3) · 1000 = 500` ms. -/
theorem check_tcp_open_latency_witness :
    ((some (((7 : ℚ)/2 - 3) * 1000)).isSome = true ↔ "OPEN" = "OPEN") ∧
    (∀ sT fT : ℚ,
      ConnectBehavior.connects 3 (7/2) = ConnectBehavior.connects sT fT →
      sT ≤ fT →
      ∃ q : ℚ, some (((7 : ℚ)/2 - 3) * 1000) = some q ∧ 0 ≤ q ∧
        q = (fT - sT) * 1000) :=
  check_tcp_open_latency "localhost" 443 5 (ConnectBehavior.connects 3 (7/2))
    ("OPEN", some (((7 : ℚ)/2 - 3) * 1000)) rfl

/-! ### C2: batch completeness and attribution -/

/-- C2.  Batch completeness and attribution: for any snapshot, any probe
outcomes and any completion order, the assembled batch has exactly one
entry per snapshot row (its targets are a permutation of the snapshot — no
duplicate, no omission, nothing from outside the snapshot), every entry
pairs a snapshot row with the outcome computed for that same row (the
future-to-row tag, independent of where completion order placed it), and
the batch as a multiset does not depend on the completion order at all. -/
theorem scan_batch_complete (rows : List Target)
    (res : Fin rows.length → String × Option ℚ)
    (order : Equiv.Perm (Fin rows.length)) :
    (assembleResults rows res order).length = rows.length ∧
    List.Perm ((assembleResults rows res order).map Prod.fst) rows ∧
    (∀ p ∈ assembleResults rows res order,
      ∃ i : Fin rows.length, p.1 = rows.get i ∧ p.2 = res i) ∧
    (∀ k : Fin rows.length,
      (assembleResults rows res order).get
          ⟨k.val, by simp [assembleResults]⟩ =
        (rows.get (order k), res (order k))) ∧
    List.Perm (assembleResults rows res order)
      (assembleResults rows res (Equiv.refl (Fin rows.length))) := by
  refine ⟨by simp [assembleResults], ?_, ?_, ?_, ?_⟩
  · have h1 : (assembleResults rows res order).map Prod.fst =
        ((List.finRange rows.length).map (order : Fin rows.length → Fin rows.length)).map rows.get := by
      simp [assembleResults, List.map_map, Function.comp_def]
    rw [h1]
    have h2 := (order.map_finRange_perm).map rows.get
    rwa [List.finRange_map_get] at h2
  · intro p hp
    simp only [assembleResults, List.mem_map, List.mem_finRange] at hp
    obtain ⟨k, -, hk⟩ := hp
    exact ⟨order k, by rw [← hk], by rw [← hk]⟩
  · intro k
    simp [assembleResults]
  · have h1 : assembleResults rows res order =
        ((List.finRange rows.length).map (order : Fin rows.length → Fin rows.length)).map
          (fun i => (rows.get i, res i)) := by
      simp [assembleResults, List.map_map, Function.comp_def]
    have h2 : assembleResults rows res (Equiv.refl (Fin rows.length)) =
        (List.finRange rows.length).map (fun i => (rows.get i, res i)) := by
      simp [assembleResults]
    rw [h1, h2]
    exact (order.map_finRange_perm).map _

/-! ### C5: snapshot isolation -/

/-- C5.  Snapshot isolation: starting a scan from an idle state records the
session as the by-value copies of the rows' `(host, port)` (with the
current timeout) and their names; any subsequent assignment to the live
`self.targets` list leaves the in-flight session — the endpoints it probes
and the labels its results carry — unchanged. -/
theorem snapshot_isolation (s : AppState) (h : s.refreshInProgress = false) :
    ((refresh_async s).session =
      some { probes := s.rows.map (fun t => (t.host, t.port, s.timeout)),
             labels := s.rows.map Target.name }) ∧
    (∀ ts : List Target,
      (mutateTargets (refresh_async s) ts).session = (refresh_async s).session) ∧
    (∀ ts : List Target,
      (mutateTargets (refresh_async s) ts).session =
        some { probes := s.rows.map (fun t => (t.host, t.port, s.timeout)),
               labels := s.rows.map Target.name }) := by
  have hs : (refresh_async s).session =
      some { probes := s.rows.map (fun t => (t.host, t.port, s.timeout)),
             labels := s.rows.map Target.name } := by
    unfold refresh_async
    rw [h]
    simp
  exact ⟨hs, fun ts => rfl, fun ts => hs⟩

/-- C5 witness: a concrete idle state with one row; replacing the live list
with the empty list after scan start leaves the session snapshot intact. -/
theorem snapshot_isolation_witness :
    ((refresh_async (initApp 5 10 0 [⟨"web", "127.0.0.1", 80⟩])).session =
      some { probes := [⟨"web", "127.0.0.1", 80⟩].map
                (fun t : Target => (t.host, t.port, (5 : ℚ))),
             labels := [⟨"web", "127.0.0.1", 80⟩].map Target.name }) ∧
    (∀ ts : List Target,
      (mutateTargets (refresh_async (initApp 5 10 0 [⟨"web", "127.0.0.1", 80⟩])) ts).session =
        (refresh_async (initApp 5 10 0 [⟨"web", "127.0.0.1", 80⟩])).session) ∧
    (∀ ts : List Target,
      (mutateTargets (refresh_async (initApp 5 10 0 [⟨"web", "127.0.0.1", 80⟩])) ts).session =
        some { probes := [⟨"web", "127.0.0.1", 80⟩].map
                  (fun t : Target => (t.host, t.port, (5 : ℚ))),
               labels := [⟨"web", "127.0.0.1", 80⟩].map Target.name }) :=
  snapshot_isolation (initApp 5 10 0 [⟨"web", "127.0.0.1", 80⟩]) rfl

/-! ### C6: scan-level failure atomicity -/

/-- C6.  Scan-level failure atomicity: if the fan-out/aggregation body of
`_refresh_worker` raises, the session is aborted — the flag returns to
idle (so a new `refresh_async` starts a fresh session), the worker count
drops to zero, no batch is delivered (no `apply_results` call at all, in
particular no partial one) and the failure path `recover` is handed to the
sink exactly once. -/
theorem refresh_worker_failure_atomic (s : AppState)
    (results : List (String × String × Option ℚ))
    (h : s.refreshInProgress = true) (hw : s.runningWorkers = 1) :
    (refreshWorkerFinish s true results).1.refreshInProgress = false ∧
    (refreshWorkerFinish s true results).1.runningWorkers = 0 ∧
    (refreshWorkerFinish s true results).1.session = none ∧
    (refreshWorkerFinish s true results).2 = [SinkCall.scanFailed] ∧
    ((refreshWorkerFinish s true results).2.count SinkCall.scanFailed = 1) ∧
    (∀ rs, SinkCall.scanComplete rs ∉ (refreshWorkerFinish s true results).2) ∧
    (refresh_async (refreshWorkerFinish s true results).1).refreshInProgress = true := by
  have hred : refreshWorkerFinish s true results =
      ({ s with refreshInProgress := false,
                runningWorkers := s.runningWorkers - 1, session := none },
       [SinkCall.scanFailed]) := rfl
  rw [hred]
  refine ⟨rfl, by simp [hw], rfl, rfl, by simp, by intro rs; simp, ?_⟩
  unfold refresh_async
  simp

/-- C6 witness: the failure path from a concrete running state with one
live worker. -/
theorem refresh_worker_failure_atomic_witness :
    (refreshWorkerFinish (refresh_async (initApp 5 10 0 [⟨"web", "127.0.0.1", 80⟩]))
        true []).1.refreshInProgress = false ∧
    (refreshWorkerFinish (refresh_async (initApp 5 10 0 [⟨"web", "127.0.0.1", 80⟩]))
        true []).1.runningWorkers = 0 ∧
    (refreshWorkerFinish (refresh_async (initApp 5 10 0 [⟨"web", "127.0.0.1", 80⟩]))
        true []).1.session = none ∧
    (refreshWorkerFinish (refresh_async (initApp 5 10 0 [⟨"web", "127.0.0.1", 80⟩]))
        true []).2 = [SinkCall.scanFailed] ∧
    ((refreshWorkerFinish (refresh_async (initApp 5 10 0 [⟨"web", "127.0.0.1", 80⟩]))
        true []).2.count SinkCall.scanFailed = 1) ∧
    (∀ rs, SinkCall.scanComplete rs ∉
      (refreshWorkerFinish (refresh_async (initApp 5 10 0 [⟨"web", "127.0.0.1", 80⟩]))
        true []).2) ∧
    (refresh_async (refreshWorkerFinish
        (refresh_async (initApp 5 10 0 [⟨"web", "127.0.0.1", 80⟩]))
        true []).1).refreshInProgress = true :=
  refresh_worker_failure_atomic
    (refresh_async (initApp 5 10 0 [⟨"web", "127.0.0.1", 80⟩])) [] rfl rfl

/-! ### C7: edits while a scan is running -/

/-- A concrete `Running` state: one target, its scan in flight. -/
def c7State : AppState :=
  { timeout := 5, maxWorkers := 10, autoRefreshSeconds := 0,
    targets := [⟨"web", "127.0.0.1", 80⟩], rows := [⟨"web", "127.0.0.1", 80⟩],
    refreshInProgress := true, runningWorkers := 1,
    session := some { probes := [("127.0.0.1", 80, 5)], labels := ["web"] },
    pendingAuto := none, nextAfterId := 0 }

/-- C7 counterexample: while a scan is running, deleting an existing target
has no effect (the target is still present afterwards) and the add dialog
does not open — so edits to the live list are not permitted at any time;
both entry points return immediately when `refresh_in_progress` is set. -/
theorem edits_while_running_counterexample :
    c7State.refreshInProgress = true ∧
    delete_row c7State ⟨"web", "127.0.0.1", 80⟩ = c7State ∧
    (⟨"web", "127.0.0.1", 80⟩ : Target) ∈
      (delete_row c7State ⟨"web", "127.0.0.1", 80⟩).targets ∧
    open_add_dialog_add c7State ⟨"db", "10.0.0.1", 5432⟩ = c7State := by
  refine ⟨rfl, rfl, ?_, rfl⟩
  show (⟨"web", "127.0.0.1", 80⟩ : Target) ∈ c7State.targets
  simp [c7State]

/-- C7 (amended).  Adding or deleting a target is permitted only while no
scan is in progress: while a scan is running both entry points are
rejected as no-ops; while idle, a delete removes the matching targets
(leaving any session data untouched) and an add appends via
`add_target` — and either edit affects only the next scan's snapshot,
which is built from the edited rows when the next `refresh_async` runs. -/
theorem edits_only_while_idle (s : AppState) (row t : Target) :
    (s.refreshInProgress = true →
      delete_row s row = s ∧ open_add_dialog_add s t = s) ∧
    (s.refreshInProgress = false →
      row ∉ (delete_row s row).targets ∧
      (delete_row s row).session = s.session ∧
      (delete_row s row).refreshInProgress = false ∧
      (open_add_dialog_add s t).targets = add_target s.targets t ∧
      (refresh_async (delete_row s row)).session =
        some { probes := (delete_row s row).rows.map
                  (fun x => (x.host, x.port, s.timeout)),
               labels := (delete_row s row).rows.map Target.name }) := by
  constructor
  · intro h
    constructor
    · unfold delete_row; rw [h]; simp
    · unfold open_add_dialog_add; rw [h]; simp
  · intro h
    have hdel : delete_row s row =
        { s with
          targets := s.targets.filter (fun x =>
            !(x.name == row.name && x.host == row.host && x.port == row.port)),
          rows := s.targets.filter (fun x =>
            !(x.name == row.name && x.host == row.host && x.port == row.port)) } := by
      unfold delete_row; rw [h]; simp
    refine ⟨?_, by rw [hdel], by rw [hdel]; exact h, ?_, ?_⟩
    · rw [hdel]
      intro hmem
      have := (List.mem_filter.mp hmem).2
      simp at this
    · unfold open_add_dialog_add refresh_async
      rw [h]
      simp
    · have hflag : (delete_row s row).refreshInProgress = false := by
        rw [hdel]; exact h
      unfold refresh_async
      rw [hflag]
      simp only [Bool.false_eq_true, if_false]
      rw [hdel]

/-- C7 (amended) witness: from a concrete idle one-target state, deleting
that target takes effect, leaves no session, and the next scan's snapshot
is built from the now-empty rows. -/
theorem edits_only_while_idle_witness :
    (⟨"web", "127.0.0.1", 80⟩ : Target) ∉
      (delete_row (initApp 5 10 0 [⟨"web", "127.0.0.1", 80⟩])
        ⟨"web", "127.0.0.1", 80⟩).targets ∧
    (delete_row (initApp 5 10 0 [⟨"web", "127.0.0.1", 80⟩])
        ⟨"web", "127.0.0.1", 80⟩).session =
      (initApp 5 10 0 [⟨"web", "127.0.0.1", 80⟩]).session ∧
    (delete_row (initApp 5 10 0 [⟨"web", "127.0.0.1", 80⟩])
        ⟨"web", "127.0.0.1", 80⟩).refreshInProgress = false ∧
    (open_add_dialog_add (initApp 5 10 0 [⟨"web", "127.0.0.1", 80⟩])
        ⟨"db", "10.0.0.1", 5432⟩).targets =
      add_target (initApp 5 10 0 [⟨"web", "127.0.0.1", 80⟩]).targets
        ⟨"db", "10.0.0.1", 5432⟩ ∧
    (refresh_async (delete_row (initApp 5 10 0 [⟨"web", "127.0.0.1", 80⟩])
        ⟨"web", "127.0.0.1", 80⟩)).session =
      some { probes := (delete_row (initApp 5 10 0 [⟨"web", "127.0.0.1", 80⟩])
                ⟨"web", "127.0.0.1", 80⟩).rows.map
                  (fun x => (x.host, x.port, (5 : ℚ))),
             labels := (delete_row (initApp 5 10 0 [⟨"web", "127.0.0.1", 80⟩])
                ⟨"web", "127.0.0.1", 80⟩).rows.map Target.name } :=
  (edits_only_while_idle (initApp 5 10 0 [⟨"web", "127.0.0.1", 80⟩])
    ⟨"web", "127.0.0.1", 80⟩ ⟨"db", "10.0.0.1", 5432⟩).2 rfl

/-! ### C8: scheduler reprogramming -/

theorem refresh_async_sched_fields (s : AppState) :
    (refresh_async s).autoRefreshSeconds = s.autoRefreshSeconds ∧
    (refresh_async s).nextAfterId = s.nextAfterId ∧
    (refresh_async s).pendingAuto = s.pendingAuto := by
  unfold refresh_async
  split <;> simp

/-- C8.  Scheduler reprogramming: applying settings with a new interval `v`
cancels whatever trigger was pending (the new pending callback, if any, is
a fresh one) and programs the next firing at `now + v·1000` ms — relative
to the moment of the change; `v = 0` leaves auto-scan disabled (no pending
trigger).  A tick fires the refresh and reprograms exactly one more firing
at `now + interval·1000` relative to the tick, so the timer is
self-rescheduling, not fixed-rate. -/
theorem scheduler_reprogram (s : AppState) (now : Nat) (tmo : ℚ) (mw v : Nat) :
    ((apply_settings now s tmo mw v).pendingAuto =
      if v > 0 then some ⟨s.nextAfterId, now + v * 1000⟩ else none) ∧
    (∀ p : PendingTimer, s.pendingAuto = some p → p.id < s.nextAfterId →
      (apply_settings now s tmo mw v).pendingAuto ≠ some p) ∧
    (s.autoRefreshSeconds > 0 →
      (auto_refresh_tick now s).pendingAuto =
        some ⟨s.nextAfterId, now + s.autoRefreshSeconds * 1000⟩) ∧
    (s.autoRefreshSeconds = 0 → (auto_refresh_tick now s).pendingAuto = none) ∧
    (s.refreshInProgress = false →
      (auto_refresh_tick now s).refreshInProgress = true) := by
  have happ : (apply_settings now s tmo mw v).pendingAuto =
      if v > 0 then some ⟨s.nextAfterId, now + v * 1000⟩ else none := by
    unfold apply_settings
    rw [(refresh_async_sched_fields _).2.2]
    unfold schedule_auto_refresh
    split <;> simp_all
  refine ⟨happ, ?_, ?_, ?_, ?_⟩
  · intro p hp hid
    rw [happ]
    split
    · intro hcon
      injection hcon with hcon
      rw [← hcon] at hid
      simp at hid
    · simp
  · intro hpos
    unfold auto_refresh_tick schedule_auto_refresh
    obtain ⟨ha, hb, -⟩ := refresh_async_sched_fields s
    rw [ha, hb, if_pos hpos]
  · intro hz
    unfold auto_refresh_tick schedule_auto_refresh
    obtain ⟨ha, -, -⟩ := refresh_async_sched_fields s
    rw [ha, hz]
    simp
  · intro hidle
    unfold auto_refresh_tick schedule_auto_refresh
    have hflag : (refresh_async s).refreshInProgress = true := by
      unfold refresh_async
      rw [hidle]
      simp
    split <;> simpa using hflag

/-- A concrete scheduler state: interval 7 s, one pending trigger (id 0,
firing at t = 7000 ms), next id 1. -/
def c8State : AppState := schedule_auto_refresh 0 (initApp 5 10 7 [])

/-- C8 witness: at t = 3000 ms, applying settings with interval 2 s
replaces the pending t = 7000 ms trigger (which can no longer fire) with
one at t = 3000 + 2000 ms; a tick at t = 3000 ms would reprogram the next
firing at t = 3000 + 7000 ms and set the refresh flag. -/
theorem scheduler_reprogram_witness :
    ((apply_settings 3000 c8State 2 20 2).pendingAuto =
      if 2 > 0 then some ⟨c8State.nextAfterId, 3000 + 2 * 1000⟩ else none) ∧
    ((apply_settings 3000 c8State 2 20 2).pendingAuto ≠ some ⟨0, 7000⟩) ∧
    ((auto_refresh_tick 3000 c8State).pendingAuto =
      some ⟨c8State.nextAfterId, 3000 + c8State.autoRefreshSeconds * 1000⟩) ∧
    ((auto_refresh_tick 3000 c8State).refreshInProgress = true) := by
  have h := scheduler_reprogram c8State 3000 2 20 2
  exact ⟨h.1, h.2.1 ⟨0, 7000⟩ (by decide) (by decide),
    h.2.2.1 (by decide), h.2.2.2.2 (by decide)⟩

/-! ### C9: name uniqueness on add -/

theorem fmtName_injective (base : String) : Function.Injective (fmtName base) := by
  intro a b hab
  have hd : (fmtName base a).data = (fmtName base b).data := by rw [hab]
  simp only [fmtName, String.data_append] at hd
  have h1 := List.append_cancel_right hd
  have h2 := List.append_cancel_left h1
  exact natRepr_injective h2

theorem exists_fresh_fmt (existing : List String) (base : String) :
    ∃ k, k < existing.length + 1 ∧ fmtName base (2 + k) ∉ existing := by
  by_contra hcon
  push_neg at hcon
  have hinj : Function.Injective (fun k : Nat => fmtName base (2 + k)) :=
    (fmtName_injective base).comp (add_right_injective 2)
  have hsub : (Finset.range (existing.length + 1)).image
      (fun k => fmtName base (2 + k)) ⊆ existing.toFinset := by
    intro x hx
    simp only [Finset.mem_image, Finset.mem_range] at hx
    obtain ⟨k, hk, rfl⟩ := hx
    exact List.mem_toFinset.mpr (hcon k hk)
  have hcard := Finset.card_le_card hsub
  rw [Finset.card_image_of_injective _ hinj, Finset.card_range] at hcard
  have := existing.toFinset_card_le
  omega

theorem bumpName_spec (existing : List String) (base : String) :
    ∀ fuel n, (∃ k, k < fuel ∧ fmtName base (n + k) ∉ existing) →
      fmtName base (bumpName existing base fuel n) ∉ existing ∧
      n ≤ bumpName existing base fuel n ∧
      ∀ j, n ≤ j → j < bumpName existing base fuel n →
        fmtName base j ∈ existing := by
  intro fuel
  induction fuel with
  | zero =>
    rintro n ⟨k, hk, -⟩
    omega
  | succ fuel ih =>
    rintro n ⟨k, hk, hfree⟩
    by_cases hmem : fmtName base n ∈ existing
    · have hstep : bumpName existing base (fuel + 1) n =
          bumpName existing base fuel (n + 1) := by
        rw [bumpName, if_pos hmem]
      rw [hstep]
      have hkpos : k ≠ 0 := by
        rintro rfl
        exact hfree (by simpa using hmem)
      have hex : ∃ k', k' < fuel ∧ fmtName base (n + 1 + k') ∉ existing := by
        refine ⟨k - 1, by omega, ?_⟩
        have : n + 1 + (k - 1) = n + k := by omega
        rw [this]
        exact hfree
      obtain ⟨h1, h2, h3⟩ := ih (n + 1) hex
      refine ⟨h1, by omega, ?_⟩
      intro j hj1 hj2
      rcases Nat.eq_or_lt_of_le hj1 with rfl | hlt
      · exact hmem
      · exact h3 j hlt hj2
    · have hstep : bumpName existing base (fuel + 1) n = n := by
        rw [bumpName, if_neg hmem]
      rw [hstep]
      exact ⟨hmem, le_refl n, fun j hj1 hj2 => absurd (lt_of_le_of_lt hj1 hj2) (lt_irrefl n)⟩

/-- C9.  Name uniqueness on add: if the existing names are pairwise
distinct, `add_target` keeps them pairwise distinct; the new target is
appended at the end with its host and port unchanged; its name is the
requested one when free, and otherwise `f"{name} ({n})"` for the smallest
`n ≥ 2` that does not collide with an existing name. -/
theorem add_target_name_unique (targets : List Target) (t : Target)
    (h : (targets.map Target.name).Nodup) :
    ((add_target targets t).map Target.name).Nodup ∧
    (∃ nm : String,
      add_target targets t =
        targets ++ [{ name := nm, host := t.host, port := t.port }] ∧
      (t.name ∉ targets.map Target.name → nm = t.name) ∧
      (t.name ∈ targets.map Target.name →
        ∃ n : Nat, 2 ≤ n ∧ nm = fmtName t.name n ∧
          fmtName t.name n ∉ targets.map Target.name ∧
          ∀ m : Nat, 2 ≤ m → m < n → fmtName t.name m ∈ targets.map Target.name)) := by
  by_cases hc : t.name ∈ targets.map Target.name
  · set r := bumpName (targets.map Target.name) t.name
      ((targets.map Target.name).length + 1) 2 with hr
    have hex : ∃ k, k < (targets.map Target.name).length + 1 ∧
        fmtName t.name (2 + k) ∉ targets.map Target.name :=
      exists_fresh_fmt (targets.map Target.name) t.name
    obtain ⟨hfree, hge, hleast⟩ :=
      bumpName_spec (targets.map Target.name) t.name
        ((targets.map Target.name).length + 1) 2 hex
    have hdef : add_target targets t =
        targets ++ [{ name := fmtName t.name r, host := t.host, port := t.port }] := by
      simp only [add_target]
      rw [if_pos hc]
    constructor
    · rw [hdef]
      simp only [List.map_append, List.map_cons, List.map_nil]
      rw [List.nodup_append]
      refine ⟨h, List.nodup_singleton _, ?_⟩
      intro a ha hb
      simp only [List.mem_singleton] at hb
      subst hb
      exact hfree ha
    · refine ⟨_, hdef, fun hno => absurd hc hno, fun _ => ?_⟩
      exact ⟨_, hge, rfl, hfree, fun m hm2 hmlt => hleast m hm2 hmlt⟩
  · have hdef : add_target targets t =
        targets ++ [{ name := t.name, host := t.host, port := t.port }] := by
      simp only [add_target]
      rw [if_neg hc]
    constructor
    · rw [hdef]
      simp only [List.map_append, List.map_cons, List.map_nil]
      rw [List.nodup_append]
      refine ⟨h, List.nodup_singleton _, ?_⟩
      intro a ha hb
      simp only [List.mem_singleton] at hb
      subst hb
      exact hc ha
    · exact ⟨t.name, hdef, fun _ => rfl, fun hyes => absurd hyes hc⟩

/-- C9 witness: adding `"web"` to a list already containing `"web"` and
`"web (2)"` yields the fresh name `"web (3)"`, appended at the end, and
the name list stays duplicate-free. -/
theorem add_target_name_unique_witness :
    ((add_target [⟨"web", "h1", 1⟩, ⟨"web (2)", "h2", 2⟩]
        ⟨"web", "h3", 3⟩).map Target.name).Nodup ∧
    (∃ nm : String,
      add_target [⟨"web", "h1", 1⟩, ⟨"web (2)", "h2", 2⟩] ⟨"web", "h3", 3⟩ =
        [⟨"web", "h1", 1⟩, ⟨"web (2)", "h2", 2⟩] ++
          [{ name := nm, host := "h3", port := 3 }] ∧
      ("web" ∉ [⟨"web", "h1", 1⟩, ⟨"web (2)", "h2", 2⟩].map Target.name →
        nm = "web") ∧
      ("web" ∈ [⟨"web", "h1", 1⟩, ⟨"web (2)", "h2", 2⟩].map Target.name →
        ∃ n : Nat, 2 ≤ n ∧ nm = fmtName "web" n ∧
          fmtName "web" n ∉ [⟨"web", "h1", 1⟩, ⟨"web (2)", "h2", 2⟩].map Target.name ∧
          ∀ m : Nat, 2 ≤ m → m < n →
            fmtName "web" m ∈ [⟨"web", "h1", 1⟩, ⟨"web (2)", "h2", 2⟩].map Target.name)) :=
  add_target_name_unique [⟨"web", "h1", 1⟩, ⟨"web (2)", "h2", 2⟩]
    ⟨"web", "h3", 3⟩ (by decide)

/-! ### C10: persistence round trip -/

theorem data_ne_nil_of_ne_empty {s : String} (h : s ≠ "") : s.data ≠ [] :=
  fun hd => h (String.ext (hd.trans rfl))

theorem natRepr_ne_colon (port : Nat) : ∀ c ∈ natRepr port, c ≠ ':' := by
  intro c hc hcol
  have h2 := (natRepr_isDigit hc).2
  rw [hcol] at h2
  exact absurd h2 (by decide)

theorem stripChars_digits (D : List Char) (hD : ∀ c ∈ D, 48 ≤ c.toNat) :
    stripChars D = D := by
  apply stripChars_of_clean
  · exact dropWhile_eq_self_of_all (fun c hc => digit_not_space (hD c hc))
  · exact dropWhile_eq_self_of_all
      (fun c hc => digit_not_space (hD c (List.mem_reverse.mp hc)))

theorem rsplitColon_append (H D : List Char) (hD : ∀ c ∈ D, c ≠ ':') :
    rsplitColon (H ++ [':'] ++ D) = (H, D) := by
  unfold rsplitColon
  have hrev : (H ++ [':'] ++ D).reverse = D.reverse ++ ':' :: H.reverse := by
    simp
  rw [hrev]
  have hx : ∀ x ∈ D.reverse, (fun c => decide (c ≠ ':')) x = true := by
    intro x hxm
    simpa using hD x (List.mem_reverse.mp hxm)
  have hy : (fun c => decide (c ≠ ':')) ':' = false := by simp
  obtain ⟨ht, hd⟩ := takeWhile_append_cons hx hy
  rw [ht, hd]
  simp

theorem enc_data (host : String) (port : Nat) :
    (host ++ ":" ++ String.mk (natRepr port)).data =
      host.data ++ [':'] ++ natRepr port := by
  rw [String.data_append, String.data_append]

theorem stripChars_enc (host : String) (port : Nat)
    (hne : host.data ≠ [])
    (hclean : stripChars host.data = host.data) :
    stripChars (host.data ++ [':'] ++ natRepr port) =
      host.data ++ [':'] ++ natRepr port := by
  obtain ⟨hfront, -⟩ := clean_of_stripChars hclean
  apply stripChars_of_clean
  · rw [List.append_assoc]
    exact dropWhile_append_eq_self hfront hne
  · have hrev : (host.data ++ [':'] ++ natRepr port).reverse =
        (natRepr port).reverse ++ ':' :: host.data.reverse := by
      simp
    rw [hrev]
    have hDne : (natRepr port).reverse ≠ [] := by
      simpa using natRepr_ne_nil port
    have hDclean : ((natRepr port).reverse).dropWhile isSpace =
        (natRepr port).reverse :=
      dropWhile_eq_self_of_all
        (fun c hc => digit_not_space (natRepr_isDigit (List.mem_reverse.mp hc)).1)
    exact dropWhile_append_eq_self hDclean hDne

theorem parseTargetEntry_enc (t : Target)
    (hname : t.name ≠ "") (hhost : t.host ≠ "")
    (hp1 : 1 ≤ t.port) (hp2 : t.port ≤ 65535)
    (hsn : stripChars t.name.data = t.name.data)
    (hsh : stripChars t.host.data = t.host.data) :
    parseTargetEntry t.name (t.host ++ ":" ++ String.mk (natRepr t.port)) =
      some t := by
  have hHne : t.host.data ≠ [] := data_ne_nil_of_ne_empty hhost
  have hNne : t.name.data ≠ [] := data_ne_nil_of_ne_empty hname
  have hval := enc_data t.host t.port
  have hstrip := stripChars_enc t.host t.port hHne hsh
  have hmem : ':' ∈ t.host.data ++ [':'] ++ natRepr t.port := by simp
  have hsplit := rsplitColon_append t.host.data (natRepr t.port)
    (natRepr_ne_colon t.port)
  have hDstrip : stripChars (natRepr t.port) = natRepr t.port :=
    stripChars_digits _ (fun c hc => (natRepr_isDigit hc).1)
  simp only [parseTargetEntry]
  rw [hval, hstrip, if_pos hmem, hsplit]
  dsimp only
  rw [hsh, hDstrip, parseNat?_natRepr]
  dsimp only
  rw [hsn]
  rw [if_pos ⟨hp1, hp2, hHne, hNne⟩]

theorem percentOk_of_no_percent {l : List Char} (h : '%' ∉ l) :
    percentOk l = true := by
  induction l with
  | nil => rfl
  | cons c cs ih =>
    have hc : ¬ c = '%' := fun hh => h (by rw [hh]; exact List.mem_cons_self '%' cs)
    have htail : '%' ∉ cs := fun hh => h (List.mem_cons_of_mem c hh)
    unfold percentOk
    rw [if_neg hc]
    exact ih htail

theorem interpolate?_of_no_percent {l : List Char} (h : '%' ∉ l) :
    interpolate? l = some l := by
  induction l with
  | nil => rfl
  | cons c cs ih =>
    have hc : ¬ c = '%' := fun hh => h (by rw [hh]; exact List.mem_cons_self '%' cs)
    have htail : '%' ∉ cs := fun hh => h (List.mem_cons_of_mem c hh)
    unfold interpolate?
    rw [if_neg hc, ih htail]
    rfl

theorem stripComment_cons_clean {b : Bool} {c : Char} {cs : List Char}
    (h : stripComment b (c :: cs) = c :: cs) :
    ¬((c = ';' ∨ c = '#') ∧ b = true) ∧ stripComment c.isWhitespace cs = cs := by
  rw [stripComment] at h
  by_cases hcond : (c = ';' ∨ c = '#') ∧ b = true
  · rw [if_pos hcond] at h
    exact absurd h (by simp)
  · rw [if_neg hcond] at h
    injection h with h1 h2
    exact ⟨hcond, h2⟩

theorem stripComment_any_of_true {l : List Char}
    (h : stripComment true l = l) : ∀ b, stripComment b l = l := by
  intro b
  cases l with
  | nil => rfl
  | cons c cs =>
    obtain ⟨hcond, htail⟩ := stripComment_cons_clean h
    have hneg : ¬((c = ';' ∨ c = '#') ∧ b = true) := fun hb => hcond ⟨hb.1, rfl⟩
    rw [stripComment, if_neg hneg, htail]

theorem stripComment_append {A B : List Char} :
    ∀ b, stripComment b A = A → (∀ b2, stripComment b2 B = B) →
      stripComment b (A ++ B) = A ++ B := by
  induction A with
  | nil =>
    intro b _ hB
    simpa using hB b
  | cons c cs ih =>
    intro b hA hB
    obtain ⟨hcond, htail⟩ := stripComment_cons_clean hA
    rw [List.cons_append, stripComment, if_neg hcond,
      ih c.isWhitespace htail hB]

theorem stripComment_of_no_comment_chars {l : List Char}
    (h : ∀ c ∈ l, c ≠ ';' ∧ c ≠ '#') : ∀ b, stripComment b l = l := by
  induction l with
  | nil => intro b; rfl
  | cons c cs ih =>
    intro b
    have hc := h c (List.mem_cons_self c cs)
    have hneg : ¬((c = ';' ∨ c = '#') ∧ b = true) := by
      rintro ⟨h1 | h1, -⟩
      · exact hc.1 h1
      · exact hc.2 h1
    rw [stripComment, if_neg hneg,
      ih (fun x hx => h x (List.mem_cons_of_mem c hx)) c.isWhitespace]

theorem splitFirstDelim_append {A B : List Char}
    (hA : ∀ c ∈ A, c ≠ '=' ∧ c ≠ ':') :
    splitFirstDelim (A ++ '=' :: B) = some (A, B) := by
  induction A with
  | nil =>
    rw [List.nil_append, splitFirstDelim, if_pos (Or.inl rfl)]
  | cons c cs ih =>
    have hc := hA c (List.mem_cons_self c cs)
    have hneg : ¬(c = '=' ∨ c = ':') := by
      rintro (h1 | h1)
      · exact hc.1 h1
      · exact hc.2 h1
    rw [List.cons_append, splitFirstDelim, if_neg hneg,
      ih (fun x hx => hA x (List.mem_cons_of_mem c hx))]
    rfl

theorem stripChars_append_space {A : List Char}
    (hA : stripChars A = A) (hne : A ≠ []) : stripChars (A ++ [' ']) = A := by
  obtain ⟨hf, hb⟩ := clean_of_stripChars hA
  unfold stripChars
  rw [dropWhile_append_eq_self hf hne]
  have hrev : (A ++ [' ']).reverse = ' ' :: A.reverse := by simp
  have hsp : isSpace ' ' = true := by decide
  rw [hrev, List.dropWhile_cons, if_pos hsp, hb, List.reverse_reverse]

theorem stripChars_cons_space {V : List Char}
    (hV : stripChars V = V) (hne : V ≠ []) : stripChars (' ' :: V) = V := by
  obtain ⟨hf, hb⟩ := clean_of_stripChars hV
  unfold stripChars
  have hsp : isSpace ' ' = true := by decide
  rw [List.dropWhile_cons, if_pos hsp, hf, hb, List.reverse_reverse]

theorem head?_append_of_ne_nil {A B : List Char} (h : A ≠ []) :
    (A ++ B).head? = A.head? := by
  cases A with
  | nil => exact absurd rfl h
  | cons c cs => rfl

theorem iniLine_data (t : Target) :
    (iniLine (t.name, targetValue t)).data =
      t.name.data ++ ([' ', '=', ' '] ++ (targetValue t).data) := by
  show (t.name ++ " = " ++ targetValue t).data = _
  rw [String.data_append, String.data_append, List.append_assoc]

theorem parseIniLine_enc (t : Target)
    (hname : t.name ≠ "") (hhost : t.host ≠ "")
    (hsn : stripChars t.name.data = t.name.data)
    (hsh : stripChars t.host.data = t.host.data)
    (hnd : ∀ c ∈ t.name.data, c ≠ '=' ∧ c ≠ ':')
    (hbr : t.name.data.head? ≠ some '[')
    (hcn : stripComment true t.name.data = t.name.data)
    (hch : stripComment true t.host.data = t.host.data) :
    parseIniLine (iniLine (t.name, targetValue t)) =
      Except.ok (some (t.name, targetValue t)) := by
  have hNne : t.name.data ≠ [] := data_ne_nil_of_ne_empty hname
  have hHne : t.host.data ≠ [] := data_ne_nil_of_ne_empty hhost
  have hVdata : (targetValue t).data =
      t.host.data ++ [':'] ++ natRepr t.port := enc_data t.host t.port
  have hVne : (targetValue t).data ≠ [] := by
    rw [hVdata]; simp
  have hVclean : stripChars (targetValue t).data = (targetValue t).data := by
    rw [hVdata]; exact stripChars_enc t.host t.port hHne hsh
  have hDcc : ∀ c ∈ natRepr t.port, c ≠ ';' ∧ c ≠ '#' := by
    intro c hc
    have hd := natRepr_isDigit hc
    constructor <;> (intro hcol; rw [hcol] at hd; exact absurd hd (by decide))
  have hVcommentT : stripComment true (targetValue t).data = (targetValue t).data := by
    rw [hVdata, List.append_assoc]
    refine stripComment_append true hch
      (stripComment_of_no_comment_chars ?_)
    intro c hc
    rcases List.mem_append.mp hc with h1 | h2
    · simp only [List.mem_singleton] at h1
      subst h1
      exact ⟨by decide, by decide⟩
    · exact hDcc c h2
  have hVcomment := stripComment_any_of_true hVcommentT
  have hsep : ∀ b, stripComment b ([' ', '=', ' '] ++ (targetValue t).data) =
      [' ', '=', ' '] ++ (targetValue t).data := fun b =>
    stripComment_append b (stripComment_of_no_comment_chars (by decide) b)
      hVcomment
  have hcomment : stripComment true
      (t.name.data ++ ([' ', '=', ' '] ++ (targetValue t).data)) =
      t.name.data ++ ([' ', '=', ' '] ++ (targetValue t).data) :=
    stripComment_append true hcn hsep
  have hstrip : stripChars
      (t.name.data ++ ([' ', '=', ' '] ++ (targetValue t).data)) =
      t.name.data ++ ([' ', '=', ' '] ++ (targetValue t).data) := by
    apply stripChars_of_clean
    · obtain ⟨hf, -⟩ := clean_of_stripChars hsn
      exact dropWhile_append_eq_self hf hNne
    · have hassoc : t.name.data ++ ([' ', '=', ' '] ++ (targetValue t).data) =
          (t.name.data ++ [' ', '=', ' '] ++ t.host.data ++ [':']) ++
            natRepr t.port := by
        rw [hVdata]
        simp [List.append_assoc]
      rw [hassoc, List.reverse_append]
      exact dropWhile_append_eq_self
        (dropWhile_eq_self_of_all (fun c hc =>
          digit_not_space (natRepr_isDigit (List.mem_reverse.mp hc)).1))
        (by simpa using natRepr_ne_nil t.port)
  have hne2 : t.name.data ++ ([' ', '=', ' '] ++ (targetValue t).data) ≠ [] := by
    simp [hNne]
  have hhead : (t.name.data ++ ([' ', '=', ' '] ++ (targetValue t).data)).head? ≠
      some '[' := by
    rw [head?_append_of_ne_nil hNne]
    exact hbr
  have hsplit : splitFirstDelim
      (t.name.data ++ ([' ', '=', ' '] ++ (targetValue t).data)) =
      some (t.name.data ++ [' '], ' ' :: (targetValue t).data) := by
    have hassoc : t.name.data ++ ([' ', '=', ' '] ++ (targetValue t).data) =
        (t.name.data ++ [' ']) ++ '=' :: (' ' :: (targetValue t).data) := by
      simp
    rw [hassoc]
    refine splitFirstDelim_append ?_
    intro c hc
    rcases List.mem_append.mp hc with h1 | h2
    · exact hnd c h1
    · simp only [List.mem_singleton] at h2
      subst h2
      exact ⟨by decide, by decide⟩
  have hk : stripChars (t.name.data ++ [' ']) = t.name.data :=
    stripChars_append_space hsn hNne
  have hv : stripChars (' ' :: (targetValue t).data) = (targetValue t).data :=
    stripChars_cons_space hVclean hVne
  simp only [parseIniLine]
  rw [iniLine_data, hcomment, hstrip, if_neg (by exact hne2),
    if_neg (by exact hhead), hsplit]
  dsimp only
  rw [hk, hv]

theorem readTargetSection_enc :
    ∀ (ts : List Target) (acc : List (String × String)),
      (∀ t ∈ ts, parseIniLine (iniLine (t.name, targetValue t)) =
        Except.ok (some (t.name, targetValue t))) →
      (ts.map Target.name).Nodup →
      (∀ u ∈ ts, ∀ p ∈ acc, p.1 ≠ u.name) →
      readTargetSection (ts.map (fun t => iniLine (t.name, targetValue t))) acc =
        Except.ok (acc ++ ts.map (fun t => (t.name, targetValue t))) := by
  intro ts
  induction ts with
  | nil =>
    intro acc _ _ _
    simp [readTargetSection]
  | cons t ts ih =>
    intro acc hline hnd hfresh
    simp only [List.map_cons]
    rw [readTargetSection, hline t (List.mem_cons_self t ts)]
    have hany : acc.any (fun p => decide (p.1 = t.name)) = false := by
      rw [List.any_eq_false]
      intro p hp
      simpa using hfresh t (List.mem_cons_self t ts) p hp
    dsimp only
    rw [hany]
    simp only [Bool.false_eq_true, if_false]
    have hcons : (∀ x ∈ ts, ¬ x.name = t.name) ∧ (ts.map Target.name).Nodup := by
      simpa using hnd
    rw [ih (acc ++ [(t.name, targetValue t)])
      (fun u hu => hline u (List.mem_cons_of_mem t hu)) hcons.2 ?fresh]
    · simp
    case fresh =>
      intro u hu p hp
      rcases List.mem_append.mp hp with hin | hone
      · exact hfresh u (List.mem_cons_of_mem t hu) p hin
      · simp only [List.mem_singleton] at hone
        subst hone
        intro hpe
        simp only at hpe
        exact hcons.1 u hu hpe.symm

theorem interpolateEntries_id :
    ∀ es : List (String × String), (∀ kv ∈ es, '%' ∉ (kv.2 : String).data) →
      interpolateEntries es = Except.ok es := by
  intro es
  induction es with
  | nil =>
    intro _
    rfl
  | cons kv rest ih =>
    intro h
    rw [interpolateEntries,
      interpolate?_of_no_percent (h kv (List.mem_cons_self kv rest)),
      ih (fun x hx => h x (List.mem_cons_of_mem kv hx))]

theorem buildTargetsDict_nodup :
    ∀ (ts : List Target) (acc : List (String × String)),
      (ts.map Target.name).Nodup →
      (∀ u ∈ ts, ∀ p ∈ acc, p.1 ≠ u.name) →
      (∀ u ∈ ts, percentOk (targetValue u).data = true) →
      buildTargetsDict ts acc =
        Except.ok (acc ++ ts.map (fun t => (t.name, targetValue t))) := by
  intro ts
  induction ts with
  | nil =>
    intro acc _ _ _
    simp [buildTargetsDict]
  | cons t ts ih =>
    intro acc hnd hfresh hpc
    rw [buildTargetsDict, if_pos (hpc t (List.mem_cons_self t ts))]
    have hany : acc.any (fun p => decide (p.1 = t.name)) = false := by
      rw [List.any_eq_false]
      intro p hp
      simpa using hfresh t (List.mem_cons_self t ts) p hp
    have hins : dictInsert acc t.name (targetValue t) =
        acc ++ [(t.name, targetValue t)] := by
      unfold dictInsert
      rw [hany]
      simp
    rw [hins]
    have hcons : (∀ x ∈ ts, ¬ x.name = t.name) ∧ (ts.map Target.name).Nodup := by
      simpa using hnd
    rw [ih (acc ++ [(t.name, targetValue t)]) hcons.2 ?fresh
      (fun u hu => hpc u (List.mem_cons_of_mem t hu))]
    · simp
    case fresh =>
      intro u hu p hp
      rcases List.mem_append.mp hp with hin | hone
      · exact hfresh u (List.mem_cons_of_mem t hu) p hin
      · simp only [List.mem_singleton] at hone
        subst hone
        intro hpe
        simp only at hpe
        exact hcons.1 u hu hpe.symm

theorem filterMap_eq_self_of_some {α : Type} (f : α → Option α) :
    ∀ l : List α, (∀ a ∈ l, f a = some a) → l.filterMap f = l := by
  intro l
  induction l with
  | nil =>
    intro _
    rfl
  | cons a l ih =>
    intro h
    rw [List.filterMap_cons, h a (List.mem_cons_self a l),
      ih (fun b hb => h b (List.mem_cons_of_mem a hb))]

/-- C10 counterexample: the claim quantifies over every target list with
nonempty names and hosts and in-range ports, but the configparser layer
mangles several such lists.  Duplicate names collapse to the last entry
(`cfg["TARGETS"][t.name] = ...` overwrites); a name containing `=` splits
at the first delimiter on reload; a host containing whitespace-then-`;`
is truncated as an inline comment and the entry dropped; a host with a
bare `%` makes `save_state` raise `ValueError` in `before_set`, while an
escaped `%%` is rewritten to `%` by interpolation on reload; leading
whitespace in a host is stripped on reload.  Each input satisfies the
claim's hypotheses yet fails to round-trip. -/
theorem save_load_roundtrip_counterexample :
    ((save_state 5 10 0 [⟨"a", "h", 1⟩, ⟨"a", "h", 2⟩]).bind load_state ≠
      Except.ok (5, 10, 0, [⟨"a", "h", 1⟩, ⟨"a", "h", 2⟩])) ∧
    ((save_state 5 10 0 [⟨"a", "h", 1⟩, ⟨"a", "h", 2⟩]).bind load_state =
      Except.ok (5, 10, 0, [⟨"a", "h", 2⟩])) ∧
    ((save_state 5 10 0 [⟨"a=b", "h", 1⟩]).bind load_state =
      Except.ok (5, 10, 0, [⟨"a", "b = h", 1⟩])) ∧
    ((save_state 5 10 0 [⟨"k", "h ;x", 80⟩]).bind load_state =
      Except.ok (5, 10, 0, [])) ∧
    ((save_state 5 10 0 [⟨"k", "50%", 80⟩]).bind load_state =
      Except.error PersistError.invalidPercent) ∧
    ((save_state 5 10 0 [⟨"k", "50%%", 80⟩]).bind load_state =
      Except.ok (5, 10, 0, [⟨"k", "50%", 80⟩])) ∧
    ((save_state 5 10 0 [⟨"k", " h", 80⟩]).bind load_state =
      Except.ok (5, 10, 0, [⟨"k", "h", 80⟩])) := by
  refine ⟨by decide, by decide, by decide, by decide, by decide, by decide,
    by decide⟩

/-- C10 (amended).  Persistence round trip: for every timeout,
max_workers, auto_refresh and target list whose targets have nonempty
names and hosts and ports in 1–65535, and which in addition avoid the
configparser manglings exhibited by the counterexample — names pairwise
distinct; names and hosts with no leading/trailing whitespace and no
newline; names without `=` or `:`, not starting with `[`; neither name
nor host starting with `;`/`#` or containing `;`/`#` right after
whitespace; hosts without `%` — `save_state` followed by `load_state`
returns the same timeout, max_workers, auto_refresh and an equal target
list. -/
theorem save_load_roundtrip (tmo : ℚ) (mw ar : ℤ) (targets : List Target)
    (hnd : (targets.map Target.name).Nodup)
    (h : ∀ t ∈ targets,
      t.name ≠ "" ∧ t.host ≠ "" ∧ 1 ≤ t.port ∧ t.port ≤ 65535 ∧
      stripChars t.name.data = t.name.data ∧
      stripChars t.host.data = t.host.data ∧
      (∀ c ∈ t.name.data, c ≠ '=' ∧ c ≠ ':' ∧ c ≠ '\n' ∧ c ≠ '\r') ∧
      t.name.data.head? ≠ some '[' ∧
      stripComment true t.name.data = t.name.data ∧
      stripComment true t.host.data = t.host.data ∧
      '%' ∉ t.host.data ∧
      (∀ c ∈ t.host.data, c ≠ '\n' ∧ c ≠ '\r')) :
    (save_state tmo mw ar targets).bind load_state =
      Except.ok (tmo, mw, ar, targets) := by
  have hnp : ∀ u ∈ targets, '%' ∉ (targetValue u).data := by
    intro u hu hmem
    obtain ⟨-, -, -, -, -, -, -, -, -, -, hup, -⟩ := h u hu
    have hvd : (targetValue u).data = u.host.data ++ [':'] ++ natRepr u.port :=
      enc_data u.host u.port
    rw [hvd] at hmem
    rcases List.mem_append.mp hmem with h1 | h2
    · rcases List.mem_append.mp h1 with h3 | h4
      · exact hup h3
      · simp at h4
    · exact absurd (natRepr_isDigit h2).1 (by decide)
  have hpc : ∀ u ∈ targets, percentOk (targetValue u).data = true :=
    fun u hu => percentOk_of_no_percent (hnp u hu)
  have hbuild := buildTargetsDict_nodup targets [] hnd
    (by intro u hu p hp; simp at hp) hpc
  have hsave : save_state tmo mw ar targets =
      Except.ok ⟨tmo, mw, ar, (targets.map (fun t => (t.name, targetValue t))).map iniLine⟩ := by
    unfold save_state
    rw [List.nil_append] at hbuild
    simp [hbuild]
  rw [hsave]
  show load_state _ = _
  unfold load_state
  have hmapmap : (targets.map (fun t => (t.name, targetValue t))).map iniLine =
      targets.map (fun t => iniLine (t.name, targetValue t)) := by
    rw [List.map_map]
    rfl
  rw [hmapmap]
  have hread := readTargetSection_enc targets []
    (fun t ht => by
      obtain ⟨h1, h2, -, -, h5, h6, h7, h8, h9, h10, -, -⟩ := h t ht
      exact parseIniLine_enc t h1 h2 h5 h6
        (fun c hc => ⟨(h7 c hc).1, (h7 c hc).2.1⟩) h8 h9 h10)
    hnd (by intro u hu p hp; simp at hp)
  have hinterp := interpolateEntries_id
    (targets.map (fun t => (t.name, targetValue t)))
    (by
      intro kv hkv
      rw [List.mem_map] at hkv
      obtain ⟨u, hu, rfl⟩ := hkv
      exact hnp u hu)
  rw [hread, List.nil_append]
  dsimp only
  rw [hinterp]
  dsimp only
  rw [List.filterMap_map]
  rw [filterMap_eq_self_of_some _ targets (fun t ht => by
    obtain ⟨h1, h2, h3, h4, h5, h6, -⟩ := h t ht
    exact parseTargetEntry_enc t h1 h2 h3 h4 h5 h6)]

/-- C10 witness: a concrete well-formed single-target store round-trips
exactly through the configparser layer. -/
theorem save_load_roundtrip_witness :
    (save_state 5 10 0 [⟨"web", "127.0.0.1", 80⟩]).bind load_state =
      Except.ok (5, 10, 0, [⟨"web", "127.0.0.1", 80⟩]) :=
  save_load_roundtrip 5 10 0 [⟨"web", "127.0.0.1", 80⟩] (by decide) (by decide)
